import Mathlib

/-!
Verification of the Google-Keep-to-Evernote converter
(`google-keep-to-evernote.py`) against its natural-language specification.

The development shallowly embeds the script's core pipeline:
base64 encoding/decoding of image payloads, the per-image embedding loop of
`process_note`, checklist conversion, tag construction, timestamp/metadata
extraction from the JSON sidecar (`get_timestamps_from_json`), chronological
sorting, and the chunked ENEX writer (`create_enex_chunks`).

External library calls (MD5 digest, HTML-entity unescaping, NFC
normalization, `datetime` formatting, the filesystem, `mimetypes`) are kept
abstract as components of an `Env` record; everything else is translated
directly from the source.

Machine strings are modelled as Lean `String`/`List Char`; raw image bytes
are `List Nat` with an explicit `< 256` bound where it matters.
-/

/-! ### Base64 (models Python's `base64.b64encode` / a standard decoder) -/

/-- The standard base64 alphabet, as a character list. -/
def b64chars : List Char :=
  "ABCDEFGHIJKLMNOPQRSTUVWXYZabcdefghijklmnopqrstuvwxyz0123456789+/".data

/-- Character for a 6-bit value (0..63). -/
def charOfSextet (n : Nat) : Char := b64chars.getD n 'A'

/-- 6-bit value of an alphabet character; `none` for characters outside the
alphabet (including the padding character). -/
def sextetOfChar (c : Char) : Option Nat := b64chars.findIdx? (fun d => d == c)

/-- Standard base64 encoding of a byte sequence (three bytes become four
characters; the final group is padded with one or two `=`), exactly as
`base64.b64encode` produces for byte values below 256. -/
def b64encodeList : List Nat → List Char
  | [] => []
  | [a] => [charOfSextet (a / 4), charOfSextet (a % 4 * 16), '=', '=']
  | [a, b] => [charOfSextet (a / 4), charOfSextet (a % 4 * 16 + b / 16),
               charOfSextet (b % 16 * 4), '=']
  | a :: b :: c :: rest =>
      charOfSextet (a / 4) :: charOfSextet (a % 4 * 16 + b / 16) ::
      charOfSextet (b % 16 * 4 + c / 64) :: charOfSextet (c % 64) ::
      b64encodeList rest

/-- Standard base64 decoding: groups of four characters, the final group may
carry `=` padding; anything malformed yields `none`. -/
def b64decodeList : List Char → Option (List Nat)
  | [] => some []
  | c1 :: c2 :: c3 :: c4 :: rest =>
    (sextetOfChar c1).bind fun x =>
    (sextetOfChar c2).bind fun y =>
    if c3 = '=' then
      if c4 = '=' ∧ rest = [] then some [x * 4 + y / 16] else none
    else
      (sextetOfChar c3).bind fun z =>
      if c4 = '=' then
        if rest = [] then some [x * 4 + y / 16, y % 16 * 16 + z / 4] else none
      else
        (sextetOfChar c4).bind fun w =>
        (b64decodeList rest).bind fun tl =>
        some ((x * 4 + y / 16) :: (y % 16 * 16 + z / 4) :: (z % 4 * 64 + w) :: tl)
  | _ => none

/-- String-level wrappers. -/
def b64encode (bs : List Nat) : String := String.mk (b64encodeList bs)

def b64decode (s : String) : Option (List Nat) := b64decodeList s.data

theorem sextet_charOf : ∀ n, n < 64 → sextetOfChar (charOfSextet n) = some n := by
  decide

theorem charOf_ne_pad : ∀ n, n < 64 → charOfSextet n ≠ '=' := by
  decide

theorem sextet_lt (c : Char) (n : Nat) (hc : sextetOfChar c = some n) : n < 64 := by
  have h := List.findIdx?_eq_some_iff_findIdx_eq.mp hc
  have hlen : b64chars.length = 64 := by decide
  omega

/-- Round-trip: decoding the base64 encoding of any byte sequence returns
exactly the original bytes. -/
theorem b64decode_encode (bs : List Nat) (h : ∀ x ∈ bs, x < 256) :
    b64decodeList (b64encodeList bs) = some bs := by
  match bs with
  | [] => simp [b64encodeList, b64decodeList]
  | [a] =>
    have ha : a < 256 := h a (by simp)
    have h1 := sextet_charOf (a / 4) (by omega)
    have h2 := sextet_charOf (a % 4 * 16) (by omega)
    simp [b64encodeList, b64decodeList, h1, h2]
    omega
  | [a, b] =>
    have ha : a < 256 := h a (by simp)
    have hb : b < 256 := h b (by simp)
    have h1 := sextet_charOf (a / 4) (by omega)
    have h2 := sextet_charOf (a % 4 * 16 + b / 16) (by omega)
    have h3 := sextet_charOf (b % 16 * 4) (by omega)
    have hne := charOf_ne_pad (b % 16 * 4) (by omega)
    simp [b64encodeList, b64decodeList, h1, h2, h3, hne]
    omega
  | a :: b :: c :: rest =>
    have ha : a < 256 := h a (by simp)
    have hb : b < 256 := h b (by simp)
    have hc : c < 256 := h c (by simp)
    have h1 := sextet_charOf (a / 4) (by omega)
    have h2 := sextet_charOf (a % 4 * 16 + b / 16) (by omega)
    have h3 := sextet_charOf (b % 16 * 4 + c / 64) (by omega)
    have h4 := sextet_charOf (c % 64) (by omega)
    have hne3 := charOf_ne_pad (b % 16 * 4 + c / 64) (by omega)
    have hne4 := charOf_ne_pad (c % 64) (by omega)
    have ih := b64decode_encode rest (by intro x hx; exact h x (by simp_all))
    simp [b64encodeList, b64decodeList, h1, h2, h3, h4, hne3, hne4, ih]
    omega
  termination_by bs.length

/-- Bytes produced by the base64 decoder are always below 256. -/
theorem b64decode_bounds (cs : List Char) (bs : List Nat)
    (h : b64decodeList cs = some bs) : ∀ x ∈ bs, x < 256 := by
  match cs with
  | [] =>
    simp only [b64decodeList, Option.some.injEq] at h
    subst h; simp
  | [c1] => simp [b64decodeList] at h
  | [c1, c2] => simp [b64decodeList] at h
  | [c1, c2, c3] => simp [b64decodeList] at h
  | c1 :: c2 :: c3 :: c4 :: rest =>
    rw [b64decodeList] at h
    simp only [Option.bind_eq_some, Option.some.injEq] at h
    obtain ⟨x, e1, h⟩ := h
    obtain ⟨y, e2, h⟩ := h
    have hx := sextet_lt _ _ e1
    have hy := sextet_lt _ _ e2
    by_cases p3 : c3 = '='
    · rw [if_pos p3] at h
      by_cases p4 : c4 = '=' ∧ rest = []
      · rw [if_pos p4] at h
        simp only [Option.some.injEq] at h
        subst h; intro v hv; simp at hv; omega
      · rw [if_neg p4] at h; exact absurd h (by simp)
    · rw [if_neg p3] at h
      simp only [Option.bind_eq_some, Option.some.injEq] at h
      obtain ⟨z, e3, h⟩ := h
      have hz := sextet_lt _ _ e3
      by_cases p4 : c4 = '='
      · rw [if_pos p4] at h
        by_cases p5 : rest = []
        · rw [if_pos p5] at h
          simp only [Option.some.injEq] at h
          subst h; intro v hv; simp at hv
          rcases hv with hv | hv <;> omega
        · rw [if_neg p5] at h; exact absurd h (by simp)
      · rw [if_neg p4] at h
        simp only [Option.bind_eq_some, Option.some.injEq] at h
        obtain ⟨w, e4, h⟩ := h
        obtain ⟨tl, e5, h⟩ := h
        have hw := sextet_lt _ _ e4
        subst h
        intro v hv
        simp only [List.mem_cons] at hv
        rcases hv with hv | hv | hv | hv
        · omega
        · omega
        · omega
        · exact b64decode_bounds rest tl e5 v hv
  termination_by cs.length

/-! ### Small string helpers (modelled at the character-list level) -/

/-- Models Python `str.startswith`. -/
def strStartsWith (s pre : String) : Bool := pre.data.isPrefixOf s.data

/-- Models Python `str.endswith`. -/
def strEndsWith (s suf : String) : Bool := suf.data.isSuffixOf s.data

/-- Models Python `pat in s` (substring containment). -/
def containsSub (s pat : String) : Bool := decide (pat.data <:+: s.data)

/-- Split at the first occurrence of `sep`: `some (before, after)`, or `none`
when `sep` does not occur.  Models the successful/failing unpacking of
Python's `s.split(sep, 1)` into exactly two variables. -/
def breakAtChar (sep : Char) : List Char → Option (List Char × List Char)
  | [] => none
  | c :: rest =>
    if c = sep then some ([], rest)
    else (breakAtChar sep rest).map (fun p => (c :: p.1, p.2))

/-- The part of the list before the first occurrence of `sep`
(Python `s.split(sep)[0]`). -/
def takeUntil (sep : Char) : List Char → List Char
  | [] => []
  | c :: rest => if c = sep then [] else c :: takeUntil sep rest

/-- Models `header.split(';')[0].split(':')[1]` from the data-URI branch of
`process_note` (the guard `src.startswith('data:image/')` guarantees the
colon exists; a missing colon yields `""` here where Python would raise). -/
def extractMime (header : String) : String :=
  match breakAtChar ':' (takeUntil ';' header.data) with
  | none => ""
  | some p => String.mk (takeUntil ':' p.2)

/-- Models `os.path.basename` (the part after the last path separator). -/
def basename (p : String) : String := String.mk ((takeUntil '/' p.data.reverse).reverse)

/-- Models `os.path.join(dir, f)` for the cases exercised here: an absolute
`f` wins, otherwise the two parts are joined with a separator. -/
def joinPath (dir f : String) : String :=
  if strStartsWith f "/" then f else dir ++ "/" ++ f

/-- Models Python `str.strip()` (whitespace trimming at both ends). -/
def pyStrip (s : String) : String :=
  String.mk (((s.data.dropWhile Char.isWhitespace).reverse.dropWhile Char.isWhitespace).reverse)

/-- Models `html.escape(text, quote=False)`: sequentially replacing
`&` with `&amp;`, then `<` with `&lt;`, then `>` with `&gt;`, which is
equivalent to this single-pass character expansion because the inserted
entities contain no `<` or `>`. -/
def htmlEscapeChar (c : Char) : List Char :=
  if c = '&' then "&amp;".data
  else if c = '<' then "&lt;".data
  else if c = '>' then "&gt;".data
  else [c]

def htmlEscape (s : String) : String := String.mk ((s.data.map htmlEscapeChar).flatten)

/-! ### The environment of external library calls

`Env` packages every effectful or black-box library call used by
`process_note`: HTML-entity unescaping (`html.unescape`), Unicode NFC
normalization (`unicodedata.normalize`), timestamp rendering
(`format_timestamp`), the MD5 hex digest (`hashlib.md5(...).hexdigest()`),
base64 decoding of data-URI payloads (`base64.b64decode`, `none` models a
raised exception), the filesystem (`os.path.isfile` / `open(...).read()`,
`none` models a raised `OSError`), and `mimetypes` guessing. -/
structure Env where
  unescape : String → String
  nfc : String → String
  fmtTs : Int → String
  md5hex : List Nat → String
  b64dec : String → Option (List Nat)
  isfile : String → Bool
  readFile : String → Option (List Nat)
  guessType : String → Option String
  guessExt : String → Option String

/-- `escape_xml` from the source: unescape HTML entities, normalize to NFC,
then escape markup characters (`quote=False`). -/
def escape_xml (env : Env) (s : String) : String := htmlEscape (env.nfc (env.unescape s))

/-! ### Image embedding (the `for img in soup.find_all('img')` loop) -/

/-- One emitted `<resource>` block: base64 data, mime type, display
filename (kept raw here; `escape_xml` is applied at rendering time). -/
structure Resource where
  encoded : String
  mime : String
  fname : String

/-- One inline `<en-media .../>` marker. -/
structure MediaTag where
  mime : String
  hash : String

/-- The fetch phase for a single `img` tag's `src`:
`none` models `continue` after a logged warning (base64 decode failure or
local-file read failure); `some (imageData, mimeType)` models falling
through to the `if image_data and mime_type:` check, where `imageData` and
`mimeType` still carry Python's `None` as `Option.none`. -/
def fetchImage (env : Env) (sourceDir src : String) :
    Option (Option (List Nat) × Option String) :=
  if strStartsWith src "data:image/" then
    match breakAtChar ',' src.data with
    | none => none
    | some p =>
      match env.b64dec (String.mk p.2) with
      | none => none
      | some bytes => some (some bytes, some (extractMime (String.mk p.1)))
  else if env.isfile (joinPath sourceDir src) then
    match env.readFile (joinPath sourceDir src) with
    | none => none
    | some bytes => some (some bytes, env.guessType (joinPath sourceDir src))
  else
    some (none, none)

/-- Display filename derivation: the original basename, or
`image<ext>`/`image.bin` when the basename is empty or is an embedded-data
marker (`data:` prefix). -/
def deriveFilename (env : Env) (src mime : String) : String :=
  let orig := basename src
  if orig.data.isEmpty || strStartsWith orig "data:" then
    let e := (env.guessExt mime).getD ""
    if e.data.isEmpty then "image" ++ ".bin" else "image" ++ e
  else orig

/-- The image loop of `process_note`: returns the resource blocks, the
inline markers (both in document order), the media counter, and the number
of logged image warnings. -/
def processImages (env : Env) (sourceDir : String) :
    List String → List Resource × List MediaTag × Nat × Nat
  | [] => ([], [], 0, 0)
  | src :: rest =>
    let r := processImages env sourceDir rest
    match fetchImage env sourceDir src with
    | none => (r.1, r.2.1, r.2.2.1, r.2.2.2 + 1)
    | some (dataOpt, mimeOpt) =>
      if !(dataOpt.getD []).isEmpty && !((mimeOpt.getD "").data.isEmpty) then
        let bytes := dataOpt.getD []
        let mime := mimeOpt.getD ""
        ({ encoded := b64encode bytes, mime := mime, fname := deriveFilename env src mime } :: r.1,
         { mime := mime, hash := env.md5hex bytes } :: r.2.1,
         r.2.2.1 + 1, r.2.2.2)
      else r

/-- Any byte string that reaches the emission phase came from either the
base64 decoder or a file read, so its bytes are genuine bytes (< 256)
whenever those two sources only produce genuine bytes. -/
theorem fetch_bytes_valid (env : Env) (sourceDir src : String) (bytes : List Nat)
    (m : Option String)
    (hb : ∀ s bs, env.b64dec s = some bs → ∀ x ∈ bs, x < 256)
    (hr : ∀ p bs, env.readFile p = some bs → ∀ x ∈ bs, x < 256)
    (h : fetchImage env sourceDir src = some (some bytes, m)) :
    ∀ x ∈ bytes, x < 256 := by
  unfold fetchImage at h
  split at h
  · split at h
    · exact absurd h (by simp)
    · split at h
      · exact absurd h (by simp)
      · rename_i p bs e2
        simp only [Option.some.injEq, Prod.mk.injEq] at h
        obtain ⟨h3, -⟩ := h
        subst h3
        exact hb _ _ e2
  · split at h
    · split at h
      · exact absurd h (by simp)
      · rename_i bs e2
        simp only [Option.some.injEq, Prod.mk.injEq] at h
        obtain ⟨h3, -⟩ := h
        subst h3
        exact hr _ _ e2
    · simp at h

/-- C1: for every image successfully embedded in a note, the inline
`en-media` marker's hash is the (abstract) MD5 digest of the image's raw
bytes, the resource block's base64 data decodes byte-for-byte back to those
same bytes, the marker's mime type matches the resource's, and within the
note the markers and resource blocks are in order-preserving bijection
(`Forall₂` pairs the i-th marker with the i-th resource); the media counter
equals the number of emitted resources. -/
theorem c1_resource_integrity (env : Env) (sourceDir : String) (srcs : List String)
    (hb : ∀ s bs, env.b64dec s = some bs → ∀ x ∈ bs, x < 256)
    (hr : ∀ p bs, env.readFile p = some bs → ∀ x ∈ bs, x < 256) :
    ((processImages env sourceDir srcs).2.1).length
        = ((processImages env sourceDir srcs).1).length ∧
    (processImages env sourceDir srcs).2.2.1
        = ((processImages env sourceDir srcs).1).length ∧
    List.Forall₂
      (fun (t : MediaTag) (r : Resource) =>
        t.mime = r.mime ∧
        ∃ bytes, t.hash = env.md5hex bytes ∧ b64decode r.encoded = some bytes)
      (processImages env sourceDir srcs).2.1 (processImages env sourceDir srcs).1 := by
  induction srcs with
  | nil => exact ⟨rfl, rfl, List.Forall₂.nil⟩
  | cons src rest ih =>
    obtain ⟨ih1, ih2, ih3⟩ := ih
    rcases e : fetchImage env sourceDir src with _ | ⟨dataOpt, mimeOpt⟩
    · simp only [processImages, e]
      exact ⟨ih1, ih2, ih3⟩
    · simp only [processImages, e]
      by_cases t : (!(dataOpt.getD []).isEmpty && !((mimeOpt.getD "").data.isEmpty)) = true
      · rw [if_pos t]
        rcases dataOpt with _ | bytes
        · simp at t
        · simp only [Option.getD_some] at t ⊢
          refine ⟨by simp [ih1], by simp [ih2], ?_⟩
          refine List.Forall₂.cons ⟨rfl, bytes, rfl, ?_⟩ ih3
          exact b64decode_encode bytes
            (fetch_bytes_valid env sourceDir src bytes mimeOpt hb hr e)
      · rw [if_neg t]
        exact ⟨ih1, ih2, ih3⟩

/-! ### Chunk writer (`create_enex_chunks`: slicing and output numbering) -/

/-- `ceil(n / cs)`, the `total_chunks = ceil(len(enex_notes) / chunk_size)`
computation (Python's float `ceil` is exact on these sizes; `cs = 0` would
raise `ZeroDivisionError` in the source and is outside every claim). -/
def totalChunks (n cs : Nat) : Nat := (n + cs - 1) / cs

/-- The slices `enex_notes[i*chunk_size:(i+1)*chunk_size]` for
`i in range(total_chunks)`. -/
def createChunks {α : Type} (notes : List α) (cs : Nat) : List (List α) :=
  (List.range (totalChunks notes.length cs)).map (fun i => (notes.drop (i * cs)).take cs)

/-- Zero-padding to width at least 3, as in the format spec `{i+1:03}`. -/
def padZero3 (n : Nat) : String :=
  String.mk (List.replicate (3 - (toString n).length) '0') ++ toString n

/-- `f'output_{i+1:03}.enex'` for the zero-based chunk index `i`. -/
def chunkFilename (i : Nat) : String := "output_" ++ padZero3 (i + 1) ++ ".enex"

/-- The ordered list of output document names. -/
def chunkFilenames (n cs : Nat) : List String :=
  (List.range (totalChunks n cs)).map chunkFilename

theorem totalChunks_zero (cs : Nat) (hcs : 0 < cs) : totalChunks 0 cs = 0 := by
  unfold totalChunks
  rw [Nat.zero_add]
  exact Nat.div_eq_of_lt (by omega)

theorem totalChunks_succ (n cs : Nat) (hcs : 0 < cs) (hn : 0 < n) :
    totalChunks n cs = totalChunks (n - cs) cs + 1 := by
  unfold totalChunks
  rcases Nat.lt_or_ge n cs with h | h
  · have h1 : n - cs = 0 := by omega
    rw [h1, Nat.zero_add]
    have h2 : n + cs - 1 = (n - 1) + cs := by omega
    rw [h2, Nat.add_div_right _ hcs, Nat.div_eq_of_lt (show n - 1 < cs by omega),
      Nat.div_eq_of_lt (show cs - 1 < cs by omega)]
  · have h2 : n + cs - 1 = (n - 1) + cs := by omega
    have h3 : n - cs + cs - 1 = n - 1 := by omega
    rw [h2, h3, Nat.add_div_right _ hcs]

theorem createChunks_nil {α : Type} (cs : Nat) (hcs : 0 < cs) :
    createChunks ([] : List α) cs = [] := by
  unfold createChunks
  rw [List.length_nil, totalChunks_zero cs hcs]
  rfl

theorem createChunks_cons {α : Type} (cs : Nat) (hcs : 0 < cs) (notes : List α)
    (hne : notes ≠ []) :
    createChunks notes cs = notes.take cs :: createChunks (notes.drop cs) cs := by
  unfold createChunks
  rw [totalChunks_succ notes.length cs hcs (List.length_pos.mpr hne),
    List.range_succ_eq_map, List.map_cons, List.map_map, List.length_drop]
  congr 1
  · simp
  · apply List.map_congr_left
    intro i _
    simp only [Function.comp_apply, List.drop_drop]
    congr 2
    rw [Nat.succ_mul]
    exact Nat.add_comm _ _

theorem createChunks_flatten {α : Type} (cs : Nat) (hcs : 0 < cs) (notes : List α) :
    (createChunks notes cs).flatten = notes := by
  by_cases hne : notes = []
  · subst hne
    rw [createChunks_nil cs hcs]
    rfl
  · rw [createChunks_cons cs hcs notes hne, List.flatten_cons,
      createChunks_flatten cs hcs (notes.drop cs)]
    exact List.take_append_drop cs notes
  termination_by notes.length
  decreasing_by
    have := List.length_pos.mpr hne
    simp only [List.length_drop]
    omega

theorem createChunks_dropLast {α : Type} (cs : Nat) (hcs : 0 < cs) (notes : List α) :
    ∀ c ∈ (createChunks notes cs).dropLast, c.length = cs := by
  by_cases hne : notes = []
  · subst hne
    rw [createChunks_nil cs hcs]
    simp
  · rw [createChunks_cons cs hcs notes hne]
    by_cases h2 : notes.drop cs = []
    · rw [h2, createChunks_nil cs hcs]
      simp
    · have hK : createChunks (notes.drop cs) cs ≠ [] := by
        rw [createChunks_cons cs hcs _ h2]
        simp
      rw [List.dropLast_cons_of_ne_nil hK]
      intro c hc
      rcases List.mem_cons.mp hc with hc | hc
      · subst hc
        have hlen : cs < notes.length := by
          by_contra hcon
          exact h2 (List.drop_eq_nil_of_le (by omega))
        simp only [List.length_take]
        omega
      · exact createChunks_dropLast cs hcs (notes.drop cs) c hc
  termination_by notes.length
  decreasing_by
    have := List.length_pos.mpr hne
    simp only [List.length_drop]
    omega

theorem createChunks_getLast (cs : Nat) (hcs : 0 < cs) {α : Type} (notes : List α)
    (hne : notes ≠ []) :
    ∃ last, (createChunks notes cs).getLast? = some last ∧
      1 ≤ last.length ∧ last.length ≤ cs := by
  rw [createChunks_cons cs hcs notes hne]
  by_cases h2 : notes.drop cs = []
  · rw [h2, createChunks_nil cs hcs]
    refine ⟨notes.take cs, rfl, ?_, ?_⟩
    · have h3 : 0 < notes.length := List.length_pos.mpr hne
      simp only [List.length_take]
      omega
    · simp only [List.length_take]
      omega
  · obtain ⟨last, hl, hl1, hl2⟩ := createChunks_getLast cs hcs (notes.drop cs) h2
    refine ⟨last, ?_, hl1, hl2⟩
    have hK : createChunks (notes.drop cs) cs ≠ [] := by
      rw [createChunks_cons cs hcs _ h2]
      simp
    rcases K : createChunks (notes.drop cs) cs with _ | ⟨y, ys⟩
    · exact absurd K hK
    · rw [List.getLast?_cons_cons]
      rw [K] at hl
      exact hl
  termination_by notes.length
  decreasing_by
    have := List.length_pos.mpr hne
    simp only [List.length_drop]
    omega

theorem padZero3_length (n : Nat) : 3 ≤ (padZero3 n).length := by
  unfold padZero3
  rw [String.length_append]
  have h1 : (String.mk (List.replicate (3 - (toString n).length) '0')).length
      = 3 - (toString n).length := by
    show (List.replicate (3 - (toString n).length) '0').length = _
    exact List.length_replicate _ _
  omega

/-- C2: for a non-empty note sequence and positive chunk size, the chunk
writer partitions the notes into contiguous in-order groups (their
concatenation is exactly the input), every group before the last has
exactly the configured size, the last group has size between 1 and the
configured size, the group sizes sum to the total note count, and the
output documents are numbered 1-based with zero-padding to at least three
digits. -/
theorem c2_chunk_writer (notes : List String) (cs : Nat) (hcs : 0 < cs)
    (hne : notes ≠ []) :
    (createChunks notes cs).flatten = notes ∧
    (∀ c ∈ (createChunks notes cs).dropLast, c.length = cs) ∧
    (∃ last, (createChunks notes cs).getLast? = some last ∧
      1 ≤ last.length ∧ last.length ≤ cs) ∧
    ((createChunks notes cs).map List.length).sum = notes.length ∧
    (chunkFilenames notes.length cs).length = (createChunks notes cs).length ∧
    (∀ i, i < totalChunks notes.length cs →
      (chunkFilenames notes.length cs).getD i ""
        = "output_" ++ padZero3 (i + 1) ++ ".enex" ∧
      3 ≤ (padZero3 (i + 1)).length) := by
  refine ⟨createChunks_flatten cs hcs notes, createChunks_dropLast cs hcs notes,
    createChunks_getLast cs hcs notes hne, ?_, ?_, ?_⟩
  · have h := congrArg List.length (createChunks_flatten cs hcs notes)
    rw [List.length_flatten] at h
    exact h
  · simp [chunkFilenames, createChunks]
  · intro i hi
    refine ⟨?_, padZero3_length (i + 1)⟩
    rw [List.getD_eq_getElem?_getD]
    unfold chunkFilenames
    rw [List.getElem?_map, List.getElem?_range hi]
    rfl

/-! ### Chronological sort

`notes_data.sort(key=lambda x: x[1])` is Python's guaranteed-stable sort on
the creation epoch; it is modelled by insertion sort ordered by the second
component, which is sorted and stable for the same key function. -/

/-- Comparison on `(note_xml, created_epoch)` pairs by creation epoch. -/
def createdLe (a b : String × Int) : Prop := a.2 ≤ b.2

instance : DecidableRel createdLe := fun a b => Int.decLe a.2 b.2

instance : IsTotal (String × Int) createdLe := ⟨fun a b => Int.le_total a.2 b.2⟩

instance : IsTrans (String × Int) createdLe := ⟨fun _ _ _ h1 h2 => le_trans h1 h2⟩

/-- The sort step of `create_enex_chunks`: stable sort by creation epoch
when the chronological flag is set, identity otherwise. -/
def sortNotes (flag : Bool) (l : List (String × Int)) : List (String × Int) :=
  if flag then List.insertionSort createdLe l else l

theorem orderedInsert_filter_key (x : String × Int) (l : List (String × Int)) (t : Int) :
    (List.orderedInsert createdLe x l).filter (fun p => p.2 = t)
      = (if x.2 = t then [x] else []) ++ l.filter (fun p => p.2 = t) := by
  induction l with
  | nil =>
    by_cases h : x.2 = t <;> simp [List.orderedInsert, List.filter, h]
  | cons y ys ih =>
    by_cases hr : createdLe x y
    · rw [List.orderedInsert_of_le createdLe ys hr]
      by_cases h : x.2 = t <;> simp [List.filter_cons, h]
    · rw [List.orderedInsert, if_neg hr]
      have hyx : y.2 < x.2 := by
        have h : ¬ x.2 ≤ y.2 := hr
        omega
      rw [List.filter_cons, List.filter_cons, ih]
      by_cases hy : y.2 = t
      · have hx : ¬ x.2 = t := by omega
        simp [hy, hx]
      · simp [hy]

theorem insertionSort_filter_key (l : List (String × Int)) (t : Int) :
    (List.insertionSort createdLe l).filter (fun p => p.2 = t)
      = l.filter (fun p => p.2 = t) := by
  induction l with
  | nil => rfl
  | cons x xs ih =>
    rw [List.insertionSort, orderedInsert_filter_key, ih, List.filter_cons]
    by_cases h : x.2 = t <;> simp [h]

/-- C3: with the chronological flag set, the note sequence is sorted by
creation epoch ascending (each adjacent pair is ordered), and the sort is
stable: for every creation epoch `t`, the subsequence of notes with that
epoch is exactly the input subsequence with that epoch, in input order. -/
theorem c3_chronological_sort (l : List (String × Int)) :
    List.Chain' (fun a b : String × Int => a.2 ≤ b.2) (sortNotes true l) ∧
    (∀ t : Int, (sortNotes true l).filter (fun p => p.2 = t)
        = l.filter (fun p => p.2 = t)) ∧
    sortNotes false l = l := by
  refine ⟨?_, fun t => insertionSort_filter_key l t, rfl⟩
  have h := List.sorted_insertionSort createdLe l
  exact h.chain'

/-! ### JSON sidecar metadata (`get_timestamps_from_json`) -/

/-- JSON values as found in a parsed sidecar. -/
inductive JVal where
  | jnull
  | jbool (b : Bool)
  | jnum (n : Int)
  | jstr (s : String)
  | jarr (items : List JVal)
  | jobj (fields : List (String × JVal))

/-- Python truthiness (`bool(x)`) on JSON values. -/
def truthy : JVal → Bool
  | .jnull => false
  | .jbool b => b
  | .jnum n => decide (n ≠ 0)
  | .jstr s => !s.data.isEmpty
  | .jarr items => !items.isEmpty
  | .jobj fields => !fields.isEmpty

/-- `data.get(key)` on a parsed JSON object. -/
def jget (data : List (String × JVal)) (k : String) : Option JVal := data.lookup k

/-- Models `str.isdigit` for the ASCII digits that `int(...)` then accepts;
non-ASCII digit forms (where Python's `isdigit` is wider but `int(...)`
raises inside the same `try` block, producing the full-default path) are
outside this model. -/
def isAllDigits (s : String) : Bool := !s.data.isEmpty && s.data.all Char.isDigit

/-- `int(s)` for an all-digit string. -/
def digitsToNat (s : String) : Nat :=
  s.data.foldl (fun acc c => acc * 10 + (c.toNat - 48)) 0

/-- The timestamp-field coercion: an all-digit string is converted with
`int(...)`; `isinstance(x, (int, float))` then accepts integers — and
booleans, because Python's `bool` is a subclass of `int` (`True` counts
as `1`) — while anything else leaves the value `None`.  Non-integral
floats are outside this integer model. -/
def coerceUsec : Option JVal → Option Int
  | some (.jnum n) => some n
  | some (.jbool b) => some (if b then 1 else 0)
  | some (.jstr s) => if isAllDigits s then some (Int.ofNat (digitsToNat s)) else none
  | _ => none

/-- `int(usec // 1_000_000)`: Python's floor division. -/
def usecToEpoch (u : Int) : Int := Int.fdiv u 1000000

/-- Whether a string contains `"name"` as a substring (Python `'name' in s`). -/
def hasNameSub (s : String) : Bool := containsSub s "name"

/-- One iteration of `[label.get('name') for label in data['labels'] if 'name' in label]`:
`.error` models a raised `TypeError`/`AttributeError`, `.ok none` an entry
filtered out by the `if`, `.ok (some v)` a contributed name value. -/
def labelEntry : JVal → Except Unit (Option JVal)
  | .jobj fields =>
    match fields.lookup "name" with
    | some v => .ok (some v)
    | none => .ok none
  | .jstr s => if hasNameSub s then .error () else .ok none
  | .jarr items =>
    if items.any (fun x => match x with | .jstr t => t == "name" | _ => false) then
      .error ()
    else .ok none
  | _ => .error ()

/-- The list comprehension over the entries of a JSON-array `labels` value. -/
def labelsComp : List JVal → Except Unit (List JVal)
  | [] => .ok []
  | e :: rest =>
    match labelEntry e with
    | .error _ => .error ()
    | .ok none => labelsComp rest
    | .ok (some v) => (labelsComp rest).map (fun tl => v :: tl)

/-- The whole labels block of `get_timestamps_from_json`: an absent
`labels` key leaves `labels = []`; a JSON array is iterated entry by entry;
iterating a string yields single-character strings, none of which can
contain `"name"`, so the comprehension yields `[]`; iterating an object
yields its keys and raises on any key containing `"name"` as a substring;
iterating a number, boolean or null raises immediately. -/
def extractLabels : Option JVal → Except Unit (List JVal)
  | none => .ok []
  | some (.jarr items) => labelsComp items
  | some (.jstr _) => .ok []
  | some (.jobj fields) =>
    if fields.any (fun kv => hasNameSub kv.1) then .error () else .ok []
  | some _ => .error ()

/-- The observable state of the sidecar file: `absent` models a failed
`os.path.exists`, `invalid` models an existing file whose open/parse raises
(or a parse result that is not an object), `valid` carries the parsed
object's fields. -/
inductive Sidecar where
  | absent
  | invalid
  | valid (data : List (String × JVal))

/-- The tuple returned by `get_timestamps_from_json`, with named fields. -/
structure TsMeta where
  created : Int
  updated : Int
  pinned : Bool
  archived : Bool
  labels : List JVal
  warned : Bool

/-- `get_timestamps_from_json`: `mtime` is `os.path.getmtime` of the
sibling `.html` file (`none` models a raised `OSError`), `now` the current
epoch.  Timestamps, flags and labels are read in source order, so a raised
exception in the labels comprehension keeps the already-extracted
timestamp and flag values (source lines 62–112). -/
def get_timestamps_from_json (sc : Sidecar) (mtime : Option Int) (now : Int) : TsMeta :=
  let st : Option Int × Option Int × Bool × Bool × List JVal × Bool :=
    match sc with
    | .absent => (none, none, false, false, [], false)
    | .invalid => (none, none, false, false, [], true)
    | .valid data =>
      let created := (coerceUsec (jget data "createdTimestampUsec")).map usecToEpoch
      let updated := (coerceUsec (jget data "userEditedTimestampUsec")).map usecToEpoch
      let pinned := truthy ((jget data "isPinned").getD (.jbool false))
      let archived := truthy ((jget data "isArchived").getD (.jbool false))
      match extractLabels (jget data "labels") with
      | .ok ls => (created, updated, pinned, archived, ls, false)
      | .error _ => (created, updated, pinned, archived, [], true)
  let created := st.1.getD (mtime.getD now)
  let updated := st.2.1.getD created
  { created := created, updated := updated, pinned := st.2.2.1, archived := st.2.2.2.1,
    labels := st.2.2.2.2.1, warned := st.2.2.2.2.2 }

/-- C6 counterexample: a sidecar whose `createdTimestampUsec` is the JSON
boolean `true` is neither a number nor an all-digit string, so the claim
requires the file-modification-time fallback (500 here); the code instead
treats the boolean as the integer 1 (Python `bool` is an `int` subclass)
and produces `1 // 1_000_000 = 0`. -/
theorem c6_cex :
    (get_timestamps_from_json (.valid [("createdTimestampUsec", JVal.jbool true)])
      (some 500) 999).created = 0 ∧
    ¬ (get_timestamps_from_json (.valid [("createdTimestampUsec", JVal.jbool true)])
      (some 500) 999).created = 500 := by
  constructor
  · rfl
  · decide

/-- C6 (amended): the metadata extractor is total; an absent sidecar yields
the fallback chain silently, an unreadable/malformed sidecar yields the
fallback chain plus a warning with default flags and empty labels; for a
parsed sidecar the creation epoch is the coerced `createdTimestampUsec`
(number, boolean — treated as its integer value — or all-digit string)
floor-divided by 1,000,000 when present and otherwise the modification-time
fallback, else the current time; the update epoch falls back to the
creation epoch; and the coercion accepts exactly numbers, booleans and
all-digit strings. -/
theorem c6_metadata_extraction (mtime : Option Int) (now : Int) :
    get_timestamps_from_json .absent mtime now
      = ⟨mtime.getD now, mtime.getD now, false, false, [], false⟩ ∧
    get_timestamps_from_json .invalid mtime now
      = ⟨mtime.getD now, mtime.getD now, false, false, [], true⟩ ∧
    (∀ data : List (String × JVal),
      (get_timestamps_from_json (.valid data) mtime now).created
        = ((coerceUsec (jget data "createdTimestampUsec")).map usecToEpoch).getD
            (mtime.getD now) ∧
      (get_timestamps_from_json (.valid data) mtime now).updated
        = ((coerceUsec (jget data "userEditedTimestampUsec")).map usecToEpoch).getD
            ((get_timestamps_from_json (.valid data) mtime now).created) ∧
      (get_timestamps_from_json (.valid data) mtime now).pinned
        = truthy ((jget data "isPinned").getD (.jbool false)) ∧
      (get_timestamps_from_json (.valid data) mtime now).archived
        = truthy ((jget data "isArchived").getD (.jbool false)) ∧
      (get_timestamps_from_json (.valid data) mtime now).labels
        = (extractLabels (jget data "labels")).toOption.getD [] ∧
      (get_timestamps_from_json (.valid data) mtime now).warned
        = !(extractLabels (jget data "labels")).toOption.isSome) ∧
    (∀ n, coerceUsec (some (.jnum n)) = some n) ∧
    (∀ b, coerceUsec (some (.jbool b)) = some (if b then 1 else 0)) ∧
    (∀ s, coerceUsec (some (.jstr s))
        = if isAllDigits s then some (Int.ofNat (digitsToNat s)) else none) ∧
    coerceUsec (some .jnull) = none ∧
    (∀ items, coerceUsec (some (.jarr items)) = none) ∧
    (∀ fields, coerceUsec (some (.jobj fields)) = none) ∧
    coerceUsec none = none := by
  refine ⟨rfl, rfl, ?_, fun n => rfl, fun b => rfl, fun s => rfl, rfl, fun items => rfl,
    fun fields => rfl, rfl⟩
  intro data
  rcases e : extractLabels (jget data "labels") with u | ls <;>
    simp [get_timestamps_from_json, e, Except.toOption]

/-! ### Checklist conversion (`for checklist in content.find_all('ul', class_='list')`) -/

/-- One `li.listitem` element: the text content (as returned by
`get_text(strip=True)`, the abstract tree capability) of its `span.bullet`
and `span.text` sub-elements, `none` when `find` returns no such
sub-element. -/
structure LItem where
  bullet : Option String
  text : Option String

/-- A list item after the conversion pass: either untouched, or cleared and
replaced by an `en-todo` marker followed by the appended text. -/
inductive LItemOut where
  | untouched (li : LItem)
  | todo (checked : Bool) (rest : String)

/-- `['☑', '✓', '✔', '&#9745;']`, the recognized checked-bullet texts. -/
def checkedGlyphs : List String := ["☑", "✓", "✔", "&#9745;"]

/-- One loop body iteration: items with both sub-elements become an
`en-todo` marker (checked exactly for a recognized glyph) followed by
`' ' + text`, and count 1; anything else is left untouched with count 0. -/
def convertItem (li : LItem) : LItemOut × Nat :=
  match li.bullet, li.text with
  | some b, some t => (.todo (checkedGlyphs.contains b) (" " ++ t), 1)
  | _, _ => (.untouched li, 0)

/-- The nested loops over all `ul.list` checklists, accumulating the
per-note `checklist_count`. -/
def convertChecklists (cls : List (List LItem)) : List (List LItemOut) × Nat :=
  cls.foldr
    (fun items acc =>
      let conv := items.foldr
        (fun li acc2 => ((convertItem li).1 :: acc2.1, (convertItem li).2 + acc2.2))
        ([], 0)
      (conv.1 :: acc.1, conv.2 + acc.2))
    ([], 0)

/-- Whether an item has both a bullet and a text sub-element. -/
def hasBoth (li : LItem) : Bool := li.bullet.isSome && li.text.isSome

theorem convertChecklists_fst (cls : List (List LItem)) :
    (convertChecklists cls).1 = cls.map (fun items => items.map (fun li => (convertItem li).1)) := by
  induction cls with
  | nil => rfl
  | cons items rest ih =>
    simp only [convertChecklists, List.foldr_cons, List.map_cons] at ih ⊢
    refine congrArg₂ _ ?_ ih
    induction items with
    | nil => rfl
    | cons li tl ih2 =>
      simp only [List.foldr_cons, List.map_cons] at ih2 ⊢
      exact congrArg₂ _ rfl ih2

theorem convertChecklists_count (cls : List (List LItem)) :
    (convertChecklists cls).2 = (cls.map (fun items => items.countP hasBoth)).sum := by
  induction cls with
  | nil => rfl
  | cons items rest ih =>
    simp only [convertChecklists, List.foldr_cons, List.map_cons, List.sum_cons] at ih ⊢
    refine congrArg₂ _ ?_ ih
    induction items with
    | nil => rfl
    | cons li tl ih2 =>
      simp only [List.foldr_cons, List.countP_cons] at ih2 ⊢
      rw [ih2]
      rcases hb : li.bullet with _ | b <;> rcases ht : li.text with _ | t <;>
        simp [convertItem, hasBoth, hb, ht, Nat.add_comm]

/-- C5: a list item with both a bullet and a text sub-element is replaced
by an `en-todo` marker whose checked attribute is set exactly when the
bullet text is one of the four recognized glyphs, followed by a space and
the item's text content, and counts once toward the per-note checklist
counter (the counter equals the number of items having both
sub-elements); an item missing either sub-element is left untouched and
uncounted. -/
theorem c5_checklist_conversion (b t : String) (o : Option String)
    (cls : List (List LItem)) :
    convertItem ⟨some b, some t⟩
      = (.todo (checkedGlyphs.contains b) (" " ++ t), 1) ∧
    (checkedGlyphs.contains b = true ↔
      (b = "☑" ∨ b = "✓" ∨ b = "✔" ∨ b = "&#9745;")) ∧
    convertItem ⟨none, o⟩ = (.untouched ⟨none, o⟩, 0) ∧
    convertItem ⟨some b, none⟩ = (.untouched ⟨some b, none⟩, 0) ∧
    (convertChecklists cls).2 = (cls.map (fun items => items.countP hasBoth)).sum := by
  refine ⟨rfl, ?_, rfl, rfl, convertChecklists_count cls⟩
  simp [checkedGlyphs, List.contains]

/-! ### Tag construction (`tags = json_labels.copy(); ...append(...)`) -/

/-- The tag list of a note: the sidecar label values in order, then
`'pinned'` when the pinned flag is set, then `'archived'` when the
archived flag is set. -/
def buildTags (labels : List JVal) (isPinned isArchived : Bool) : List JVal :=
  let tags := labels
  let tags := if isPinned then tags ++ [.jstr "pinned"] else tags
  if isArchived then tags ++ [.jstr "archived"] else tags

/-- C9: the emitted tag list is exactly the sidecar labels in original
order, then `"pinned"` when the pinned flag is set, then `"archived"` when
the archived flag is set, with no deduplication — a user label literally
equal to `"pinned"` (or `"archived"`) appears twice. -/
theorem c9_tag_list (labels : List JVal) (p a : Bool) :
    buildTags labels p a
      = labels ++ (if p then [JVal.jstr "pinned"] else [])
          ++ (if a then [JVal.jstr "archived"] else []) ∧
    buildTags [JVal.jstr "pinned"] true false
      = [JVal.jstr "pinned", JVal.jstr "pinned"] ∧
    buildTags [JVal.jstr "archived"] false true
      = [JVal.jstr "archived", JVal.jstr "archived"] := by
  refine ⟨?_, rfl, rfl⟩
  cases p <;> cases a <;> simp [buildTags]

/-! ### Note assembly (`process_note`) -/

/-- Python `str()` as applied (inside `escape_xml`) to a tag value.  Keep
label names are strings, for which this is the identity; the renderings of
the other JSON shapes are abstracted to fixed markers. -/
def pyStr : JVal → String
  | .jstr s => s
  | .jnull => "None"
  | .jbool b => if b then "True" else "False"
  | .jnum n => toString n
  | .jarr _ => "[...]"
  | .jobj _ => "\x7b...\x7d"

/-- The selected content container (`div.content`, or `soup.body` as
fallback): its checklist structure, and an abstract serialization
(`decode_contents()` after the checklist mutation) as a function of the
converted items — the rest of the tree is opaque. -/
structure ContentNode where
  checklists : List (List LItem)
  render : List (List LItemOut) → String

/-- The parsed HTML document of one note, as queried by `process_note`:
the `<title>` text, the optional `div.content`, the optional `<body>`,
and the `src` attributes of all `<img>` tags in document order. -/
structure SoupDoc where
  title : Option String
  contentDiv : Option ContentNode
  body : Option ContentNode
  imgs : List String

/-- `f'<en-media type="{mime_type}" hash="{md5_hash}"/>\n'`. -/
def mediaTagXml (t : MediaTag) : String :=
  "<en-media type=\"" ++ t.mime ++ "\" hash=\"" ++ t.hash ++ "\"/>\n"

/-- The `<resource>` block f-string of `process_note`. -/
def resourceXml (env : Env) (r : Resource) : String :=
  "\n<resource>\n    <data encoding=\"base64\">\n    " ++ r.encoded ++
  "\n    </data>\n    <mime>" ++ r.mime ++
  "</mime>\n    <resource-attributes>\n        <file-name>" ++
  escape_xml env r.fname ++
  "</file-name>\n    </resource-attributes>\n</resource>"

/-- `''.join(f'<tag>{escape_xml(tag)}</tag>' for tag in tags)`. -/
def tagsXml (env : Env) (tags : List JVal) : String :=
  String.join (tags.map (fun t => "<tag>" ++ escape_xml env (pyStr t) ++ "</tag>"))

/-- The final `note_xml` f-string of `process_note`. -/
def buildNoteXml (title tagElements fullEnNote createdTime updatedTime
    resourcesStr : String) : String :=
  "\n<note>\n    <title>" ++ title ++ "</title>\n    " ++ tagElements ++
  "\n    <content><![CDATA[<?xml version=\"1.0\" encoding=\"UTF-8\"?><!DOCTYPE en-note SYSTEM \"http://xml.evernote.com/pub/enml2.dtd\"><en-note>" ++
  fullEnNote ++
  "</en-note>]]></content>\n    <created>" ++ createdTime ++
  "</created>\n    <updated>" ++ updatedTime ++
  "</updated>\n    <note-attributes>\n        <source>google-keep</source>\n    </note-attributes>\n    " ++
  resourcesStr ++ "\n</note>"

/-- `process_note`: `doc = none` models a failed HTML open/parse (logged,
note dropped); a note with neither `div.content` nor `<body>` is dropped;
otherwise checklists are converted, images embedded, the content
normalized, and the note XML assembled.  Returns
`(note_xml, created_epoch, media_count, checklist_count)`. -/
def process_note (env : Env) (sourceDir : String) (sc : Sidecar) (mtime : Option Int)
    (now : Int) (doc : Option SoupDoc) : Option (String × Int × Nat × Nat) :=
  match doc with
  | none => none
  | some d =>
    let m := get_timestamps_from_json sc mtime now
    let title := escape_xml env ((d.title.map pyStrip).getD "Untitled")
    match d.contentDiv.orElse (fun _ => d.body) with
    | none => none
    | some content =>
      let conv := convertChecklists content.checklists
      let contentHtml0 := content.render conv.1
      let pim := processImages env sourceDir d.imgs
      let contentHtml := env.nfc (env.unescape contentHtml0)
      let tags := buildTags m.labels m.pinned m.archived
      let fullEnNote := contentHtml ++ "\n" ++ String.join (pim.2.1.map mediaTagXml)
      some (buildNoteXml title (tagsXml env tags) fullEnNote (env.fmtTs m.created)
              (env.fmtTs m.updated) (String.join (pim.1.map (resourceXml env))),
            m.created, pim.2.2.1, conv.2)

/-! ### The run (`create_enex_chunks` and the surrounding `main`) -/

/-- The end-of-run counters of `create_enex_chunks`. -/
structure TotalStats where
  media : Nat
  checklist : Nat
  pinned : Nat
  archived : Nat
deriving DecidableEq

/-- The observable result of `create_enex_chunks`: the two run-fatal early
returns (no output document is written in either), or the written chunks
with their filenames and the final counters. -/
inductive RunOutcome where
  | noHtml
  | noNotes
  | ok (chunks : List (List String)) (filenames : List String) (stats : TotalStats)
deriving DecidableEq

/-- `[f for f in os.listdir(source_dir) if f.endswith('.html')]`: the
discovery step.  `listing` is the directory listing in the order returned
by the operating system — the source never sorts it. -/
def discoveredHtml (listing : List String) : List String :=
  listing.filter (fun f => strEndsWith f ".html")

/-- One iteration of the per-file loop: a failed `process_note` leaves the
accumulator unchanged; a successful one appends `(note_xml, created)` and
updates the counters — pinned/archived by the substring tests
`'pinned' in note_xml` / `'archived' in note_xml`. -/
def noteStep (process : String → Option (String × Int × Nat × Nat))
    (acc : List (String × Int) × TotalStats) (f : String) :
    List (String × Int) × TotalStats :=
  match process f with
  | none => acc
  | some r =>
    (acc.1 ++ [(r.1, r.2.1)],
     { media := acc.2.media + r.2.2.1,
       checklist := acc.2.checklist + r.2.2.2,
       pinned := acc.2.pinned + (if containsSub r.1 "pinned" then 1 else 0),
       archived := acc.2.archived + (if containsSub r.1 "archived" then 1 else 0) })

/-- `create_enex_chunks`, with the per-note processing abstracted as
`process` (the composition of `process_note` with the note's files). -/
def create_enex_chunks (listing : List String)
    (process : String → Option (String × Int × Nat × Nat))
    (chunkSize : Nat) (sortChron : Bool) : RunOutcome :=
  let htmlFiles := discoveredHtml listing
  if htmlFiles.isEmpty then .noHtml
  else
    let folded := htmlFiles.foldl (noteStep process) ([], ⟨0, 0, 0, 0⟩)
    if folded.1.isEmpty then .noNotes
    else
      let notesData := sortNotes sortChron folded.1
      let enexNotes := notesData.map Prod.fst
      .ok (createChunks enexNotes chunkSize) (chunkFilenames enexNotes.length chunkSize)
        folded.2

/-- The process exit status: `main` exits 1 only when the source directory
is missing or contains no Keep-like files; every run that reaches
`create_enex_chunks` ends with status 0 (its error paths `return` and
`main` falls through), as does a user-declined output-clearing prompt. -/
def mainExitCode (sourceExists : Bool) (listing : List String) : Nat :=
  if !sourceExists then 1
  else if !(listing.any (fun f => strEndsWith f ".html" || strEndsWith f ".json" ||
      strEndsWith f ".png" || strEndsWith f ".jpg" || strEndsWith f ".jpeg" ||
      strEndsWith f ".gif")) then 1
  else 0

/-- Closed form of the per-file fold: the collected pairs are the
successfully processed notes in discovery order, and each counter is the
corresponding sum/count over them. -/
theorem foldl_noteStep (process : String → Option (String × Int × Nat × Nat))
    (files : List String) (nd : List (String × Int)) (st : TotalStats) :
    files.foldl (noteStep process) (nd, st) =
      (nd ++ (files.filterMap process).map (fun r => (r.1, r.2.1)),
       { media := st.media + ((files.filterMap process).map (fun r => r.2.2.1)).sum,
         checklist := st.checklist + ((files.filterMap process).map (fun r => r.2.2.2)).sum,
         pinned := st.pinned
           + (files.filterMap process).countP (fun r => containsSub r.1 "pinned"),
         archived := st.archived
           + (files.filterMap process).countP (fun r => containsSub r.1 "archived") }) := by
  induction files generalizing nd st with
  | nil => simp
  | cons f fs ih =>
    rw [List.foldl_cons]
    rcases e : process f with _ | r
    · rw [show noteStep process (nd, st) f = (nd, st) by simp [noteStep, e]]
      rw [ih nd st]
      simp [List.filterMap_cons, e]
    · rw [show noteStep process (nd, st) f
          = (nd ++ [(r.1, r.2.1)],
             { media := st.media + r.2.2.1,
               checklist := st.checklist + r.2.2.2,
               pinned := st.pinned + (if containsSub r.1 "pinned" then 1 else 0),
               archived := st.archived + (if containsSub r.1 "archived" then 1 else 0) })
          by simp [noteStep, e]]
      rw [ih]
      refine congrArg₂ Prod.mk ?_ ?_
      · simp [List.filterMap_cons, e]
      · obtain ⟨m, c, p, a⟩ := st
        simp only [List.filterMap_cons, e, List.map_cons, List.sum_cons, List.countP_cons,
          TotalStats.mk.injEq]
        refine ⟨by omega, by omega, ?_, ?_⟩
        · by_cases hp : containsSub r.1 "pinned" = true <;> simp [hp] <;> omega
        · by_cases hp : containsSub r.1 "archived" = true <;> simp [hp] <;> omega

/-- Lexicographic order on note source identifiers (character-list order). -/
def lexLe (a b : String) : Prop := a.data < b.data ∨ a = b

/-- C4 counterexample: discovery never sorts.  With the directory listing
`["b.html", "a.html", "img.png"]` the notes are processed in listing order
`["b.html", "a.html"]`, which is not in lexicographic order, and with the
chronological flag off the single output chunk carries the notes in that
same unsorted order. -/
theorem c4_cex :
    discoveredHtml ["b.html", "a.html", "img.png"] = ["b.html", "a.html"] ∧
    ¬ List.Sorted lexLe ["b.html", "a.html"] ∧
    create_enex_chunks ["b.html", "a.html", "img.png"]
        (fun f => some (f, 0, 0, 0)) 10 false
      = .ok [["b.html", "a.html"]] ["output_001.enex"] ⟨0, 0, 0, 0⟩ := by
  refine ⟨by decide, ?_, by decide⟩
  intro h
  have h2 := List.rel_of_sorted_cons h "a.html" (by simp)
  rcases h2 with h2 | h2
  · revert h2
    decide
  · exact absurd h2 (by decide)

/-- C4 (amended): the discovery order is the operating system's directory
listing order filtered to `.html` names (never sorted by the code); notes
are processed in that order, and with the chronological flag off the
concatenation of the output chunks is exactly the successfully processed
notes in that order. -/
theorem c4_discovery_order (listing : List String)
    (process : String → Option (String × Int × Nat × Nat)) (cs : Nat)
    (hcs : 0 < cs) (chunks : List (List String)) (fns : List String)
    (stats : TotalStats)
    (h : create_enex_chunks listing process cs false = .ok chunks fns stats) :
    discoveredHtml listing = listing.filter (fun f => strEndsWith f ".html") ∧
    chunks.flatten = ((discoveredHtml listing).filterMap process).map (fun r => r.1) := by
  refine ⟨rfl, ?_⟩
  simp only [create_enex_chunks] at h
  split at h
  · exact absurd h (by simp)
  · rw [foldl_noteStep] at h
    split at h
    · exact absurd h (by simp)
    · simp only [RunOutcome.ok.injEq] at h
      obtain ⟨h1, -, -⟩ := h
      subst h1
      rw [createChunks_flatten cs hcs]
      simp [sortNotes, List.map_map]

/-- C8 counterexample: a source listing that passes `main`'s relevant-file
check but contains no `.html` file is the run-fatal "zero note sources
discovered" case; `create_enex_chunks` returns its early abort (writing
nothing), yet the process exit status is 0, not non-zero as claimed. -/
theorem c8_cex :
    create_enex_chunks ["a.json"] (fun _ => none) 100 true = .noHtml ∧
    mainExitCode true ["a.json"] = 0 := by
  constructor
  · decide
  · decide

/-- C8 (amended): when zero note sources are discovered or zero notes are
assembled, the run returns early — the outcome is `noHtml`/`noNotes`, which
carry no output documents — but the process still terminates with status
zero for every run that reaches processing; a non-zero status occurs only
when the source directory is missing or holds no Keep-like files. -/
theorem c8_run_fatal (listing : List String)
    (process : String → Option (String × Int × Nat × Nat)) (cs : Nat) (flag : Bool) :
    ((discoveredHtml listing).isEmpty = true →
      create_enex_chunks listing process cs flag = .noHtml) ∧
    ((discoveredHtml listing).isEmpty = false →
      (discoveredHtml listing).filterMap process = [] →
      create_enex_chunks listing process cs flag = .noNotes) ∧
    (∀ chunks fns stats,
      create_enex_chunks listing process cs flag = .ok chunks fns stats →
      (discoveredHtml listing).filterMap process ≠ []) ∧
    (mainExitCode true listing
      = if listing.any (fun f => strEndsWith f ".html" || strEndsWith f ".json" ||
          strEndsWith f ".png" || strEndsWith f ".jpg" || strEndsWith f ".jpeg" ||
          strEndsWith f ".gif") then 0 else 1) ∧
    mainExitCode false listing = 1 := by
  refine ⟨?_, ?_, ?_, ?_, rfl⟩
  · intro he
    simp only [create_enex_chunks]
    rw [he]
    rfl
  · intro he hn
    simp only [create_enex_chunks]
    rw [he, if_neg (by simp), foldl_noteStep, hn]
    simp
  · intro chunks fns stats h hn
    simp only [create_enex_chunks] at h
    split at h
    · exact absurd h (by simp)
    · rw [foldl_noteStep, hn] at h
      simp at h
  · unfold mainExitCode
    rcases ha : listing.any (fun f => strEndsWith f ".html" || strEndsWith f ".json" ||
        strEndsWith f ".png" || strEndsWith f ".jpg" || strEndsWith f ".jpeg" ||
        strEndsWith f ".gif") with _ | _
    · simp [ha]
    · simp [ha]

/-- C10: the end-of-run pinned/archived counters are computed by the
substring tests `'pinned' in note_xml` / `'archived' in note_xml` over each
assembled note's serialized XML — they count exactly the assembled notes
whose XML contains the substring anywhere (`containsSub` is genuine
substring containment), regardless of whether the sidecar flag was set. -/
theorem c10_substring_counters (listing : List String)
    (process : String → Option (String × Int × Nat × Nat)) (cs : Nat) (flag : Bool)
    (chunks : List (List String)) (fns : List String) (stats : TotalStats)
    (h : create_enex_chunks listing process cs flag = .ok chunks fns stats) :
    stats.pinned = ((discoveredHtml listing).filterMap process).countP
      (fun r => containsSub r.1 "pinned") ∧
    stats.archived = ((discoveredHtml listing).filterMap process).countP
      (fun r => containsSub r.1 "archived") ∧
    (∀ s pat : String, containsSub s pat = true ↔ pat.data <:+: s.data) := by
  refine ⟨?_, ?_, fun s pat => by simp [containsSub]⟩ <;>
  · simp only [create_enex_chunks] at h
    split at h
    · exact absurd h (by simp)
    · rw [foldl_noteStep] at h
      split at h
      · exact absurd h (by simp)
      · simp only [RunOutcome.ok.injEq] at h
        obtain ⟨-, -, h3⟩ := h
        subst h3
        simp

/-- C7: image failures are local to the single image.  (a) A data-URI whose
base64 payload fails to decode is skipped with one logged warning while the
rest of the note's images are processed unchanged; (b) a resolvable local
file whose read fails likewise; (c) a reference that is neither a data URI
nor an existing file is skipped silently with no warning; (d) a note whose
only image is unreadable is still assembled, with an empty resource section,
an empty inline-marker section, a zero media counter, and exactly one
logged image warning. -/
theorem c7_image_failure_isolation (env : Env) (sourceDir src : String)
    (rest : List String) :
    (strStartsWith src "data:image/" = true →
      ∀ p, breakAtChar ',' src.data = some p →
      env.b64dec (String.mk p.2) = none →
      processImages env sourceDir (src :: rest)
        = ((processImages env sourceDir rest).1,
           (processImages env sourceDir rest).2.1,
           (processImages env sourceDir rest).2.2.1,
           (processImages env sourceDir rest).2.2.2 + 1)) ∧
    (strStartsWith src "data:image/" = false →
      env.isfile (joinPath sourceDir src) = true →
      env.readFile (joinPath sourceDir src) = none →
      processImages env sourceDir (src :: rest)
        = ((processImages env sourceDir rest).1,
           (processImages env sourceDir rest).2.1,
           (processImages env sourceDir rest).2.2.1,
           (processImages env sourceDir rest).2.2.2 + 1)) ∧
    (strStartsWith src "data:image/" = false →
      env.isfile (joinPath sourceDir src) = false →
      processImages env sourceDir (src :: rest) = processImages env sourceDir rest) ∧
    (∀ (sc : Sidecar) (mtime : Option Int) (now : Int) (d : SoupDoc)
        (content : ContentNode),
      d.contentDiv = some content →
      d.imgs = [src] →
      strStartsWith src "data:image/" = false →
      env.isfile (joinPath sourceDir src) = true →
      env.readFile (joinPath sourceDir src) = none →
      process_note env sourceDir sc mtime now (some d)
        = some (buildNoteXml (escape_xml env ((d.title.map pyStrip).getD "Untitled"))
            (tagsXml env (buildTags (get_timestamps_from_json sc mtime now).labels
              (get_timestamps_from_json sc mtime now).pinned
              (get_timestamps_from_json sc mtime now).archived))
            (env.nfc (env.unescape
              (content.render (convertChecklists content.checklists).1)) ++ "\n" ++ "")
            (env.fmtTs (get_timestamps_from_json sc mtime now).created)
            (env.fmtTs (get_timestamps_from_json sc mtime now).updated)
            "",
          (get_timestamps_from_json sc mtime now).created, 0,
          (convertChecklists content.checklists).2) ∧
      (processImages env sourceDir [src]).2.2.2 = 1) := by
  refine ⟨?_, ?_, ?_, ?_⟩
  · intro h1 p hp hd
    have hfetch : fetchImage env sourceDir src = none := by
      simp [fetchImage, h1, hp, hd]
    simp only [processImages, hfetch]
  · intro h1 h2 h3
    have hfetch : fetchImage env sourceDir src = none := by
      simp [fetchImage, h1, h2, h3]
    simp only [processImages, hfetch]
  · intro h1 h2
    have hfetch : fetchImage env sourceDir src = some (none, none) := by
      simp [fetchImage, h1, h2]
    simp only [processImages, hfetch]
    simp
  · intro sc mtime now d content hc hi h1 h2 h3
    have hfetch : fetchImage env sourceDir src = none := by
      simp [fetchImage, h1, h2, h3]
    have hpim : processImages env sourceDir [src] = ([], [], 0, 1) := by
      simp only [processImages, hfetch]
    refine ⟨?_, by rw [hpim]⟩
    simp only [process_note, hc, hi, hpim, Option.orElse]
    rfl

/-! ### Concrete instances for the witnesses -/

/-- A concrete environment whose base64 decoder is the real decoder and
whose filesystem is empty. -/
def testEnv : Env where
  unescape := id
  nfc := id
  fmtTs := fun _ => "20200101T000000Z"
  md5hex := fun bs => toString bs.length
  b64dec := b64decode
  isfile := fun _ => false
  readFile := fun _ => none
  guessType := fun _ => none
  guessExt := fun _ => some ".png"

theorem c1_witness :
    ((processImages testEnv "dir" ["data:image/png;base64,AQID"]).2.1).length
      = ((processImages testEnv "dir" ["data:image/png;base64,AQID"]).1).length ∧
    (processImages testEnv "dir" ["data:image/png;base64,AQID"]).2.2.1
      = ((processImages testEnv "dir" ["data:image/png;base64,AQID"]).1).length := by
  have h := c1_resource_integrity testEnv "dir" ["data:image/png;base64,AQID"]
    (fun s bs hh => b64decode_bounds s.data bs hh) (fun p bs hh => nomatch hh)
  exact ⟨h.1, h.2.1⟩

theorem c2_witness :
    (createChunks ["a", "b", "c"] 2).flatten = ["a", "b", "c"] ∧
    ((createChunks ["a", "b", "c"] 2).map List.length).sum
      = (["a", "b", "c"] : List String).length ∧
    (chunkFilenames (["a", "b", "c"] : List String).length 2).length
      = (createChunks ["a", "b", "c"] 2).length := by
  have h := c2_chunk_writer ["a", "b", "c"] 2 (by decide) (by decide)
  exact ⟨h.1, h.2.2.2.1, h.2.2.2.2.1⟩

theorem c4_witness :
    discoveredHtml ["b.html", "a.html"]
      = ["b.html", "a.html"].filter (fun f => strEndsWith f ".html") ∧
    [["b.html"], ["a.html"]].flatten
      = ((discoveredHtml ["b.html", "a.html"]).filterMap
          (fun f => some (f, (0 : Int), 0, 0))).map (fun r => r.1) := by
  have h := c4_discovery_order ["b.html", "a.html"] (fun f => some (f, (0 : Int), 0, 0))
    1 (by decide) [["b.html"], ["a.html"]] ["output_001.enex", "output_002.enex"]
    ⟨0, 0, 0, 0⟩ (by decide)
  exact h

/-- A concrete environment in which every local-file read fails. -/
def failEnv : Env where
  unescape := id
  nfc := id
  fmtTs := fun _ => "20200101T000000Z"
  md5hex := fun _ => "h"
  b64dec := fun _ => none
  isfile := fun _ => true
  readFile := fun _ => none
  guessType := fun _ => none
  guessExt := fun _ => none

/-- A concrete content container with no checklists. -/
def testContent : ContentNode where
  checklists := []
  render := fun _ => "body"

/-- A concrete parsed note whose only image reference is a local file. -/
def testDoc : SoupDoc where
  title := some "t"
  contentDiv := some testContent
  body := none
  imgs := ["img.png"]

theorem c7_witness :
    process_note failEnv "dir" Sidecar.absent none 0 (some testDoc)
      = some (buildNoteXml (escape_xml failEnv ((testDoc.title.map pyStrip).getD "Untitled"))
          (tagsXml failEnv (buildTags (get_timestamps_from_json Sidecar.absent none 0).labels
            (get_timestamps_from_json Sidecar.absent none 0).pinned
            (get_timestamps_from_json Sidecar.absent none 0).archived))
          (failEnv.nfc (failEnv.unescape
            (testContent.render (convertChecklists testContent.checklists).1)) ++ "\n" ++ "")
          (failEnv.fmtTs (get_timestamps_from_json Sidecar.absent none 0).created)
          (failEnv.fmtTs (get_timestamps_from_json Sidecar.absent none 0).updated)
          "",
        (get_timestamps_from_json Sidecar.absent none 0).created, 0,
        (convertChecklists testContent.checklists).2) ∧
    (processImages failEnv "dir" ["img.png"]).2.2.2 = 1 :=
  (c7_image_failure_isolation failEnv "dir" "img.png" []).2.2.2
    Sidecar.absent none 0 testDoc testContent rfl rfl (by decide) rfl rfl

theorem c8_witness :
    create_enex_chunks ["a.json", "b.html"] (fun _ => none) 5 true = .noNotes ∧
    mainExitCode true ["a.json", "b.html"] = 0 := by
  constructor
  · exact (c8_run_fatal ["a.json", "b.html"] (fun _ => none) 5 true).2.1
      (by decide) (by decide)
  · have h := (c8_run_fatal ["a.json", "b.html"] (fun _ => none) 5 true).2.2.2.1
    rw [h]
    decide

theorem c10_witness :
    (TotalStats.mk 0 0 1 0).pinned
      = ((discoveredHtml ["n.html"]).filterMap
          (fun _ => some ("<tag>pinned</tag>", (0 : Int), 0, 0))).countP
          (fun r => containsSub r.1 "pinned") ∧
    (TotalStats.mk 0 0 1 0).archived
      = ((discoveredHtml ["n.html"]).filterMap
          (fun _ => some ("<tag>pinned</tag>", (0 : Int), 0, 0))).countP
          (fun r => containsSub r.1 "archived") := by
  have h := c10_substring_counters ["n.html"]
    (fun _ => some ("<tag>pinned</tag>", (0 : Int), 0, 0)) 1 true
    [["<tag>pinned</tag>"]] ["output_001.enex"] ⟨0, 0, 1, 0⟩ (by decide)
  exact ⟨h.1, h.2.1⟩
